import Mathlib

/-!
Verification of the Py-Sitemap crawler (crawler.py and website_crawler.py)
against its natural-language specification.  The Python code is shallowly
embedded: URLs are `String`s, HTML pages are their lists of anchor elements
(href attribute and text), the network is a function from URL to fetch
outcome, and the two crawl drivers are fuel-based loops over explicit state.
-/

/-- An anchor element of a page: its href attribute and its text content. -/
structure Anchor where
  href : String
  text : String
deriving Repr, DecidableEq

/-- A fetched page, as the crawlers see it: the list of `a` tags with an
href attribute, in document order. -/
abbrev Html := List Anchor

/-- Outcome of `requests.get` on one URL: either the request itself raises a
`RequestException` that is not an `HTTPError` (timeout, DNS failure,
connection error - `transport`), or a response with a status code and a body
comes back (`raise_for_status` then raises `HTTPError` iff
`400 <= code < 600`). -/
inductive Fetch where
  | transport
  | status (code : Nat) (body : Html)
deriving Repr, DecidableEq

/-- A site maps each URL to the outcome of fetching it. -/
def Site := String → Fetch

/-- Python `s.rstrip("/")` on the character list: drop every trailing `/`. -/
def rstripSlashChars (l : List Char) : List Char :=
  (l.reverse.dropWhile (fun c => c = '/')).reverse

/-- Python `s.rstrip("/")`. -/
def strRstripSlash (s : String) : String :=
  String.mk (rstripSlashChars s.data)

/-- Python `s.split("#")[0]`: the characters before the first `#`. -/
def strBeforeHash (s : String) : String :=
  String.mk (s.data.takeWhile (fun c => c ≠ '#'))

/-- Python `pat in s` (substring test) on character lists. -/
def containsSub : List Char → List Char → Bool
  | [], pat => pat.isEmpty
  | h :: t, pat => pat.isPrefixOf (h :: t) || containsSub t pat

/-- Python `pat in s` for strings. -/
def strIn (pat s : String) : Bool :=
  containsSub s.data pat.data

/-- Python `s.startswith(pre)`. -/
def strStartsWith (s pre : String) : Bool :=
  pre.data.isPrefixOf s.data

/-- Python `s.endswith(suf)`. -/
def strEndsWith (s suf : String) : Bool :=
  suf.data.isSuffixOf s.data

/-- Python `s.lower()`, mapping each character to lowercase. -/
def strToLower (s : String) : String :=
  String.mk (s.data.map Char.toLower)

/-- A character allowed in a URL scheme by `urllib.parse.urlsplit`:
letters, digits, `+`, `-`, `.`. -/
def isSchemeChar (c : Char) : Bool :=
  c.isAlphanum || c = '+' || c = '-' || c = '.'

/-- Modelled from the Python stdlib `urllib.parse.urlsplit` scheme detection:
if the text before the first `:` is nonempty and made of scheme characters,
it is the scheme (lowercased) and the remainder follows the `:`; otherwise
there is no scheme.  The accumulator holds the scheme candidate reversed. -/
def splitSchemeAux : List Char → List Char → Option (List Char × List Char)
  | _, [] => none
  | acc, ':' :: t => if acc.isEmpty then none else some (acc.reverse, t)
  | acc, c :: t => if isSchemeChar c then splitSchemeAux (c :: acc) t else none

/-- Splits `url` into `(scheme, rest)` when a scheme is present. -/
def splitScheme (url : String) : Option (String × String) :=
  match splitSchemeAux [] url.data with
  | none => none
  | some (s, r) => some (String.mk (s.map Char.toLower), String.mk r)

/-- Modelled from `urllib.parse.urlparse(url).scheme`. -/
def schemeOf (url : String) : String :=
  match splitScheme url with
  | some (s, _) => s
  | none => ""

/-- Modelled from `urllib.parse.urlparse(url).netloc`: after removing the
scheme, a netloc is present iff the remainder starts with `//`, and extends
to the next `/`, `?` or `#`. -/
def netlocOf (url : String) : String :=
  let rest := match splitScheme url with
    | some (_, r) => r.data
    | none => url.data
  match rest with
  | '/' :: '/' :: t => String.mk (t.takeWhile (fun c => c ≠ '/' && c ≠ '?' && c ≠ '#'))
  | _ => ""

/-- The network authority including the scheme, the spec's
`scheme+host[+port]` origin notion. -/
def authorityOf (url : String) : String :=
  schemeOf url ++ "://" ++ netlocOf url

/-- Modelled from `urllib.parse.urlparse(url).path`: what remains after
removing the scheme and the netloc, truncated at the query (`?`) and the
fragment (`#`). -/
def pathOf (url : String) : String :=
  let rest := match splitScheme url with
    | some (_, r) => r.data
    | none => url.data
  let rest2 := match rest with
    | '/' :: '/' :: t => t.dropWhile (fun c => c ≠ '/' && c ≠ '?' && c ≠ '#')
    | _ => rest
  String.mk ((rest2.takeWhile (fun c => c ≠ '?')).takeWhile (fun c => c ≠ '#'))

/-- The part of `base` up to and including the last `/` of its path, used to
resolve relative references. -/
def dirOf (base : String) : String :=
  if strIn "/" (String.mk (base.data.drop (schemeOf base ++ "://" ++ netlocOf base).length)) then
    String.mk (base.data.take ((base.data.length - 1) - (base.data.reverse.takeWhile (fun c => c ≠ '/')).length + 1))
  else base ++ "/"

/-- Modelled from the Python stdlib `urllib.parse.urljoin`, at the fidelity
the crawler exercises: an empty reference yields the base, an absolute URL
(with scheme) is returned unchanged, a scheme-relative `//...` reference
takes the base's scheme, a root-relative `/...` reference is resolved
against the base's authority, and any other reference is joined to the
base's directory (no `..` segment folding). -/
def urljoin (base url : String) : String :=
  if url = "" then base
  else if (splitScheme url).isSome then url
  else if strStartsWith url "//" then schemeOf base ++ ":" ++ url
  else if strStartsWith url "/" then schemeOf base ++ "://" ++ netlocOf base ++ url
  else dirOf base ++ url

namespace Crawler

/-- crawler.py `IGNORED_EXTENSIONS`. -/
def IGNORED_EXTENSIONS : List String :=
  [".png", ".jpg", ".jpeg", ".gif", ".svg", ".webp"]

/-- crawler.py `is_internal_link`: Python
`urlparse(link).netloc in ("", urlparse(base_url).netloc)`. -/
def is_internal_link (link base_url : String) : Bool :=
  decide (netlocOf link = "" ∨ netlocOf link = netlocOf base_url)

/-- crawler.py `normalize_url`: Python `url.rstrip("/")`. -/
def normalize_url (url : String) : String :=
  strRstripSlash url

/-- The normalization applied to each resolved href inside `extract_links`:
Python `joined.split("#")[0].rstrip("/")` for `joined = urljoin(base, href)`. -/
def hrefKey (joined : String) : String :=
  strRstripSlash (strBeforeHash joined)

/-- Python tuple-endswith: `s.endswith(IGNORED_EXTENSIONS)`. -/
def endsWithIgnored (s : String) : Bool :=
  IGNORED_EXTENSIONS.any (fun ext => strEndsWith s ext)

/-- Python `links.add(x)` on a set, modelled as an insertion-ordered
duplicate-free list (CPython set iteration order is unspecified; the model
fixes first-insertion order). -/
def addUniq (links : List String) (x : String) : List String :=
  if x ∈ links then links else links ++ [x]

/-- One iteration of the `for tag in soup.find_all("a", href=True)` loop of
crawler.py `extract_links`: the resolved, normalized target is added
unconditionally when the tag text contains `Older posts`, then skipped when
it ends with an ignored extension (`continue`), and added otherwise. -/
def extractStepLinks (base_url : String) (a : Anchor) (links : List String) : List String :=
  let full_url := hrefKey (urljoin base_url a.href)
  let links1 := if strIn "Older posts" a.text = true then addUniq links full_url else links
  if endsWithIgnored (strToLower full_url) = true then links1
  else addUniq links1 full_url

/-- The body of crawler.py `extract_links`, iterating over the page's `a`
tags with the accumulated link set. -/
def extractLoop (base_url : String) : Html → List String → List String
  | [], links => links
  | a :: rest, links => extractLoop base_url rest (extractStepLinks base_url a links)

/-- crawler.py `extract_links`. -/
def extract_links (html_content : Html) (base_url : String) : List String :=
  extractLoop base_url html_content []

/-- crawler.py `is_on_blog_post`, computed in `crawl` from `current_url`:
`"/blog/" in u and "/blog/page/" not in u and not u.endswith("/blog")`. -/
def is_on_blog_post (u : String) : Bool :=
  strIn "/blog/" u && !(strIn "/blog/page/" u) && !(strEndsWith u "/blog")

/-- The loop-avoidance test applied to each candidate inside `crawl`:
skip when the current page is a blog post and the candidate is a
non-pagination blog URL. -/
def suppressedB (u nl : String) : Bool :=
  is_on_blog_post u && strIn "/blog/" nl && !(strIn "/blog/page/" nl)

/-- A `networkx.DiGraph` restricted to what crawler.py uses: nodes and
directed edges, both in insertion order. -/
structure DiGraph where
  nodes : List String
  edges : List (String × String)
deriving Repr, DecidableEq

/-- `networkx.DiGraph.add_edge`: inserts the endpoints as nodes when absent
and the edge when absent; re-adding an existing edge is a no-op. -/
def DiGraph.addEdge (g : DiGraph) (u v : String) : DiGraph :=
  { nodes :=
      let n1 := if u ∈ g.nodes then g.nodes else g.nodes ++ [u]
      if v ∈ n1 then n1 else n1 ++ [v]
    edges := if (u, v) ∈ g.edges then g.edges else g.edges ++ [(u, v)] }

/-- The mutable state of crawler.py `crawl`: the graph, the `visited` set
(in insertion order), the FIFO `queue` of `(url, path)` pairs, and the
`error_404s` list of broken-link records. -/
structure CrawlState where
  graph : DiGraph
  visited : List String
  queue : List (String × List String)
  error_404s : List (String × List String)
deriving Repr, DecidableEq

/-- The inner `for link in links` loop of `crawl`: normalize the link, skip
suppressed blog-to-blog links, and for internal unvisited targets add the
edge and enqueue `(link, path + [link])`.  `visited` does not change during
this loop, so it is a parameter. -/
def stepLinks (start_url current_url : String) (path visited : List String) :
    List String → DiGraph → List (String × List String) → DiGraph × List (String × List String)
  | [], g, q => (g, q)
  | link :: rest, g, q =>
    let nl := normalize_url link
    if suppressedB current_url nl = true then
      stepLinks start_url current_url path visited rest g q
    else if is_internal_link nl start_url = true ∧ nl ∉ visited then
      stepLinks start_url current_url path visited rest (g.addEdge current_url nl)
        (q ++ [(nl, path ++ [nl])])
    else
      stepLinks start_url current_url path visited rest g q

/-- One iteration of the `while queue` loop of crawler.py `crawl`, after
dequeuing `(current_url, path)` with `rest` remaining: skip it when already
visited, otherwise mark it visited and fetch it (a 404 appends a
broken-link record, any other `HTTPError` or `RequestException` just
continues), and on success expand the extracted links into the graph and
the queue. -/
def crawlStep (site : Site) (start_url current_url : String) (path : List String)
    (rest : List (String × List String)) (s : CrawlState) : CrawlState :=
  if current_url ∈ s.visited then { s with queue := rest }
  else
    match site current_url with
    | .transport => { s with queue := rest, visited := s.visited ++ [current_url] }
    | .status code body =>
      if 400 ≤ code ∧ code < 600 then
        if code = 404 then
          { s with queue := rest, visited := s.visited ++ [current_url],
                   error_404s := s.error_404s ++ [(current_url, path)] }
        else { s with queue := rest, visited := s.visited ++ [current_url] }
      else
        { graph := (stepLinks start_url current_url path (s.visited ++ [current_url])
            (extract_links body start_url) s.graph []).1,
          visited := s.visited ++ [current_url],
          queue := rest ++ (stepLinks start_url current_url path (s.visited ++ [current_url])
            (extract_links body start_url) s.graph []).2,
          error_404s := s.error_404s }

/-- The `while queue` loop of crawler.py `crawl`, fuel-based: `none` means
the fuel ran out before the queue emptied, `some s` that the loop finished
in state `s`. -/
def crawlLoop (site : Site) (start_url : String) : Nat → CrawlState → Option CrawlState
  | 0, _ => none
  | fuel + 1, s =>
    match s.queue with
    | [] => some s
    | (current_url, path) :: rest =>
      crawlLoop site start_url fuel (crawlStep site start_url current_url path rest s)

/-- The initial state of `crawl`: empty graph, empty visited set, the queue
holding `(normalize_url(start_url), [normalize_url(start_url)])`. -/
def initState (start_url : String) : CrawlState :=
  { graph := ⟨[], []⟩, visited := [],
    queue := [(normalize_url start_url, [normalize_url start_url])],
    error_404s := [] }

/-- The value crawler.py `crawl` returns to its caller.  The function runs
the loop (modelled by `crawlLoop`) building `graph` and `error_404s`
locally, and ends without a `return` statement, so Python returns `None`,
modelled by the inner `none`.  The outer `Option` is the fuel-based
termination of the model: `some r` means the queue emptied and the function
returned `r`. -/
def crawl (site : Site) (start_url : String) (fuel : Nat) : Option (Option DiGraph) :=
  (crawlLoop site start_url fuel (initState start_url)).map (fun _ => none)

/-- The candidate targets `crawl` computes for a fetched page `u`,
independent of the visited set: the page's extracted links, normalized,
with suppressed blog-to-blog links and non-internal links removed; empty
when the fetch of `u` fails. -/
def expandTargets (site : Site) (start_url u : String) : List String :=
  match site u with
  | .transport => []
  | .status code body =>
    if 400 ≤ code ∧ code < 600 then []
    else ((extract_links body start_url).map normalize_url).filter
      (fun nl => !(suppressedB u nl) && is_internal_link nl start_url)

/-- One internal-link step the crawl can take from page `a` to page `b`. -/
def admissible (site : Site) (start_url a b : String) : Prop :=
  b ∈ expandTargets site start_url a

/-- The fetch of `u` yields content (`raise_for_status` does not raise). -/
def fetchOk (site : Site) (u : String) : Prop :=
  match site u with
  | .transport => False
  | .status code _ => ¬(400 ≤ code ∧ code < 600)

/-- The fetch of `u` answers 404. -/
def is404 (site : Site) (u : String) : Prop :=
  ∃ body, site u = .status 404 body

/-- A path the crawl can literally traverse: it starts at the normalized
seed and each consecutive pair is an admissible internal-link step. -/
def seedPath (site : Site) (start_url : String) (p : List String) : Prop :=
  p.head? = some (normalize_url start_url) ∧ List.Chain' (admissible site start_url) p

/-- The property of a frontier entry `(url, path)` maintained by the crawl,
relative to an edge list: the path is a traversable path from the seed
ending at the url, and the url is the seed or the target of a recorded
edge. -/
def QProp (site : Site) (start_url : String) (edges : List (String × String))
    (x : String × List String) : Prop :=
  seedPath site start_url x.2 ∧ x.2.getLast? = some x.1
    ∧ (x.1 = normalize_url start_url ∨ ∃ e ∈ edges, x.1 = e.2)

/-- The invariant of the crawl loop state. -/
structure Inv (site : Site) (start_url : String) (s : CrawlState) : Prop where
  qProp : ∀ x ∈ s.queue, QProp site start_url s.graph.edges x
  ePath : ∀ x ∈ s.error_404s, seedPath site start_url x.2 ∧ x.2.getLast? = some x.1
  e404 : ∀ x ∈ s.error_404s, is404 site x.1
  eVis : ∀ x ∈ s.error_404s, x.1 ∈ s.visited
  eNodup : (s.error_404s.map Prod.fst).Nodup
  gAdm : ∀ e ∈ s.graph.edges, admissible site start_url e.1 e.2
  gSrc : ∀ e ∈ s.graph.edges,
    e.1 = normalize_url start_url ∨ ∃ e2 ∈ s.graph.edges, e.1 = e2.2
  gNodes : ∀ n ∈ s.graph.nodes, ∃ e ∈ s.graph.edges, n = e.1 ∨ n = e.2

end Crawler

namespace WebsiteCrawler

/-- A Python exception escaping a modelled function.  `unboundLocal` is the
`UnboundLocalError` raised when a function reads a local variable that was
never assigned. -/
inductive PyError where
  | unboundLocal
deriving Repr, DecidableEq

/-- website_crawler.py `fetch_html`.  `requests.get` succeeding with a
status in `400..599` makes `raise_for_status` raise `HTTPError`, which the
handler catches: it prints (404 or otherwise) and returns `None`.  When
`requests.get` itself raises (transport failure), the handler catches the
`RequestException` but then evaluates `response.status_code` with the local
`response` never assigned, so `UnboundLocalError` propagates out of the
function. -/
def fetch_html (site : Site) (url : String) : Except PyError (Option Html) :=
  match site url with
  | .transport => .error .unboundLocal
  | .status code body =>
    if 400 ≤ code ∧ code < 600 then .ok none
    else .ok (some body)

/-- website_crawler.py `extract_links`: keep an `http...` link when the base
URL occurs in it as a substring, resolve a `/...` link as `base_url + link`,
and drop everything else.  The Python set is modelled as an
insertion-ordered duplicate-free list. -/
def extractLoop (base_url : String) : Html → List String → List String
  | [], links => links
  | a :: rest, links =>
    if strStartsWith a.href "http" = true then
      if strIn base_url a.href = true then extractLoop base_url rest (Crawler.addUniq links a.href)
      else extractLoop base_url rest links
    else if strStartsWith a.href "/" = true then
      extractLoop base_url rest (Crawler.addUniq links (base_url ++ a.href))
    else extractLoop base_url rest links

/-- website_crawler.py `extract_links`. -/
def extract_links (html : Html) (base_url : String) : List String :=
  extractLoop base_url html []

/-- The `networkx.DiGraph` of website_crawler.py, whose nodes carry a
`depth` attribute.  `add_node` on an existing node updates the attribute in
place (last write wins), which is how networkx behaves. -/
structure SGraph where
  nodes : List (String × Nat)
  edges : List (String × String)
deriving Repr, DecidableEq

/-- Attribute-updating insertion into the node association list. -/
def upsertNode : List (String × Nat) → String → Nat → List (String × Nat)
  | [], u, d => [(u, d)]
  | (v, e) :: t, u, d => if v = u then (v, d) :: t else (v, e) :: upsertNode t u d

/-- `networkx.DiGraph.add_node(u, depth=d)`: inserts the node or updates its
depth attribute. -/
def SGraph.addNode (g : SGraph) (u : String) (d : Nat) : SGraph :=
  { g with nodes := upsertNode g.nodes u d }

/-- `networkx.DiGraph.add_edge(u, v)`: inserts the edge when absent.  Every
call site in `generate_sitemap_with_depth` has already added both endpoints
via `add_node`, so the node list needs no change. -/
def SGraph.addEdge (g : SGraph) (u v : String) : SGraph :=
  { g with edges := if (u, v) ∈ g.edges then g.edges else g.edges ++ [(u, v)] }

/-- Depth attribute recorded for a node. -/
def SGraph.depthOf (g : SGraph) (u : String) : Option Nat :=
  (g.nodes.find? (fun p => p.1 = u)).map Prod.snd

/-- The `for link in links` loop of `generate_sitemap_with_depth`: every
link not in `visited` is added as a node at `depth + 1` (overwriting any
earlier depth attribute), connected from the current page, and appended to
the work list. -/
def sitemapExpand (url : String) (depth : Nat) (visited : List String) :
    List String → SGraph → List (String × Nat) → SGraph × List (String × Nat)
  | [], g, q => (g, q)
  | link :: rest, g, q =>
    if link ∈ visited then sitemapExpand url depth visited rest g q
    else
      sitemapExpand url depth visited rest ((g.addNode link (depth + 1)).addEdge url link)
        (q ++ [(link, depth + 1)])

/-- The `while to_visit` loop of `generate_sitemap_with_depth`, fuel-based:
`none` means the fuel ran out, `some (.error e)` that a Python exception
escaped a fetch, `some (.ok g)` that the work list emptied with final graph
`g`.  Each iteration pops the front `(url, depth)` pair and processes it
when unvisited and within `max_depth`. -/
def sitemapLoop (site : Site) (base_url : String) (max_depth : Nat) :
    Nat → List String → List (String × Nat) → SGraph → Option (Except PyError SGraph)
  | 0, _, _, _ => none
  | fuel + 1, visited, to_visit, graph =>
    match to_visit with
    | [] => some (.ok graph)
    | (url, depth) :: rest =>
      if url ∉ visited ∧ depth ≤ max_depth then
        let visited1 := visited ++ [url]
        match fetch_html site url with
        | .error e => some (.error e)
        | .ok none => sitemapLoop site base_url max_depth fuel visited1 rest graph
        | .ok (some html) =>
          let links := extract_links html base_url
          let gq := sitemapExpand url depth visited1 links graph []
          sitemapLoop site base_url max_depth fuel visited1 (rest ++ gq.2) gq.1
      else sitemapLoop site base_url max_depth fuel visited rest graph

/-- website_crawler.py `generate_sitemap_with_depth`: the start URL becomes
the root node at depth 0 and the loop runs until the work list empties. -/
def generate_sitemap_with_depth (site : Site) (start_url base_url : String)
    (max_depth fuel : Nat) : Option (Except PyError SGraph) :=
  sitemapLoop site base_url max_depth fuel [] [(start_url, 0)]
    (SGraph.addNode ⟨[], []⟩ start_url 0)

end WebsiteCrawler

/-! Concrete synthetic sites used to evaluate the crawlers. -/

/-- A page with no links, under a given status code. -/
def leafPage (code : Nat) : Fetch := .status code []

/-- An anchor with the given href and empty text. -/
def aTag (href : String) : Anchor := ⟨href, ""⟩

/-- Site for the broken-link scenario: seed links to `/a`, `/a` links to
`/a/b`, and `/a/b` answers 404. -/
def brokenSite : Site := fun u =>
  if u = "https://x.test" then .status 200 [aTag "https://x.test/a"]
  else if u = "https://x.test/a" then .status 200 [aTag "https://x.test/a/b"]
  else if u = "https://x.test/a/b" then leafPage 404
  else leafPage 500

/-- Site with a two-cycle: `/a` links to `/b` and `/b` links back to `/a`,
both fetches succeeding. -/
def cycSite : Site := fun u =>
  if u = "https://x.test/a" then .status 200 [aTag "https://x.test/b"]
  else if u = "https://x.test/b" then .status 200 [aTag "https://x.test/a"]
  else leafPage 404

/-- Site with two cross-linking blog posts and a blog index: each post
links to the other post and to the index, the index links to both posts. -/
def blogSite : Site := fun u =>
  if u = "https://x.test/blog/post1" then
    .status 200 [aTag "https://x.test/blog/post2", aTag "https://x.test/blog"]
  else if u = "https://x.test/blog" then
    .status 200 [aTag "https://x.test/blog/post1", aTag "https://x.test/blog/post2"]
  else if u = "https://x.test/blog/post2" then
    .status 200 [aTag "https://x.test/blog/post1", aTag "https://x.test/blog"]
  else leafPage 404

/-- Site where the seed blog post links only to a sibling blog post, so the
only candidate edge is suppressed. -/
def blogSite2 : Site := fun u =>
  if u = "https://x.test/blog/post1" then .status 200 [aTag "https://x.test/blog/post2"]
  else .status 200 []

/-- Site whose seed page links only to an external domain. -/
def lonelySite : Site := fun u =>
  if u = "https://x.test" then .status 200 [aTag "https://other.test/x"]
  else leafPage 404

/-- Site exercising every fetch outcome: a transport failure, a 500, a 404
and a success, all linked from the seed. -/
def mixedSite : Site := fun u =>
  if u = "https://x.test" then
    .status 200 [aTag "https://x.test/t", aTag "https://x.test/e",
                 aTag "https://x.test/n", aTag "https://x.test/ok"]
  else if u = "https://x.test/t" then .transport
  else if u = "https://x.test/e" then leafPage 500
  else if u = "https://x.test/n" then leafPage 404
  else .status 200 []

/-- Site where every URL fails at the transport level. -/
def failSite : Site := fun _ => .transport

/-- Site for the shortest-depth scenario of website_crawler.py: the seed
links to `/a` and `/c`, and `/a` links to `/c` again. -/
def site3 : Site := fun u =>
  if u = "https://x.test" then .status 200 [aTag "https://x.test/a", aTag "https://x.test/c"]
  else if u = "https://x.test/a" then .status 200 [aTag "https://x.test/c"]
  else .status 200 []

/-! Final states of the crawls over the synthetic sites. -/

/-- Final state of crawling `brokenSite` from the seed. -/
def brokenFinal : Crawler.CrawlState :=
  { graph := ⟨["https://x.test", "https://x.test/a", "https://x.test/a/b"],
              [("https://x.test", "https://x.test/a"),
               ("https://x.test/a", "https://x.test/a/b")]⟩,
    visited := ["https://x.test", "https://x.test/a", "https://x.test/a/b"],
    queue := [],
    error_404s := [("https://x.test/a/b",
                    ["https://x.test", "https://x.test/a", "https://x.test/a/b"])] }

/-- Final state of crawling `cycSite` from `/a`. -/
def cycFinal : Crawler.CrawlState :=
  { graph := ⟨["https://x.test/a", "https://x.test/b"],
              [("https://x.test/a", "https://x.test/b")]⟩,
    visited := ["https://x.test/a", "https://x.test/b"],
    queue := [],
    error_404s := [] }

/-- Final state of crawling `blogSite` from the first blog post. -/
def blogFinal : Crawler.CrawlState :=
  { graph := ⟨["https://x.test/blog/post1", "https://x.test/blog", "https://x.test/blog/post2"],
              [("https://x.test/blog/post1", "https://x.test/blog"),
               ("https://x.test/blog", "https://x.test/blog/post2")]⟩,
    visited := ["https://x.test/blog/post1", "https://x.test/blog", "https://x.test/blog/post2"],
    queue := [],
    error_404s := [] }

/-- Final state of crawling `blogSite2` from the first blog post. -/
def blog2Final : Crawler.CrawlState :=
  { graph := ⟨[], []⟩, visited := ["https://x.test/blog/post1"], queue := [], error_404s := [] }

/-- Final state of crawling `lonelySite` from the seed. -/
def lonelyFinal : Crawler.CrawlState :=
  { graph := ⟨[], []⟩, visited := ["https://x.test"], queue := [], error_404s := [] }

/-- Final state of crawling `mixedSite` from the seed. -/
def mixedFinal : Crawler.CrawlState :=
  { graph := ⟨["https://x.test", "https://x.test/t", "https://x.test/e", "https://x.test/n",
               "https://x.test/ok"],
              [("https://x.test", "https://x.test/t"), ("https://x.test", "https://x.test/e"),
               ("https://x.test", "https://x.test/n"), ("https://x.test", "https://x.test/ok")]⟩,
    visited := ["https://x.test", "https://x.test/t", "https://x.test/e", "https://x.test/n",
                "https://x.test/ok"],
    queue := [],
    error_404s := [("https://x.test/n", ["https://x.test", "https://x.test/n"])] }

/-- Final graph of `generate_sitemap_with_depth` over `site3`. -/
def site3Graph : WebsiteCrawler.SGraph :=
  { nodes := [("https://x.test", 0), ("https://x.test/a", 1), ("https://x.test/c", 2)],
    edges := [("https://x.test", "https://x.test/a"), ("https://x.test", "https://x.test/c"),
              ("https://x.test/a", "https://x.test/c")] }

/-! Sanity checks of the primitives. -/

example : strIn "/blog/" "https://x.test/blog/post1" = true := by decide
example : strIn "/blog/" "https://x.test/blog" = false := by decide
example : strRstripSlash "https://x.test/a//" = "https://x.test/a" := by decide
example : strBeforeHash "a#f" = "a" := rfl
example : strEndsWith (strToLower "https://x.test/pic.PNG") ".png" = true := by decide
example : netlocOf "https://x.test/a" = "x.test" := by decide
example : netlocOf "/a/b" = "" := by decide
example : schemeOf "http://x.test/a" = "http" := by decide
example : urljoin "https://x.test" "https://x.test/a" = "https://x.test/a" := by decide
example : urljoin "https://x.test" "/a" = "https://x.test/a" := by decide
example : urljoin "https://x.test/d/e" "f" = "https://x.test/d/f" := by decide

/-! Helper lemmas about the string primitives, used for the normalization
claim. -/

theorem strData_append (a b : String) : (a ++ b).data = a.data ++ b.data := by
  cases a
  cases b
  rfl

theorem dropWhileIdem (p : Char → Bool) (l : List Char) :
    List.dropWhile p (List.dropWhile p l) = List.dropWhile p l := by
  induction l with
  | nil => rfl
  | cons a t ih =>
    by_cases h : p a = true
    · simp [List.dropWhile_cons, h, ih]
    · simp [List.dropWhile_cons, h]

theorem takeWhileAll (p : Char → Bool) (l : List Char) (h : ∀ c ∈ l, p c = true) :
    List.takeWhile p l = l := by
  induction l with
  | nil => rfl
  | cons a t ih =>
    have ha : p a = true := h a (List.mem_cons_self a t)
    have ht := ih (fun c hc => h c (List.mem_cons_of_mem a hc))
    rw [List.takeWhile_cons, if_pos ha, ht]

theorem takeWhileAppendHit (p : Char → Bool) (l m : List Char)
    (h : ∃ c ∈ l, p c = false) :
    List.takeWhile p (l ++ m) = List.takeWhile p l := by
  induction l with
  | nil =>
    rcases h with ⟨c, hc, _⟩
    exact absurd hc (List.not_mem_nil c)
  | cons a t ih =>
    by_cases ha : p a = true
    · have h' : ∃ c ∈ t, p c = false := by
        rcases h with ⟨c, hc, hpc⟩
        rcases List.mem_cons.mp hc with rfl | hct
        · exact absurd ha (by simp [hpc])
        · exact ⟨c, hct, hpc⟩
      simp [List.takeWhile_cons, ha, ih h']
    · have ha' : p a = false := by
        cases hpa : p a
        · rfl
        · exact absurd hpa ha
      simp [List.takeWhile_cons, ha']

theorem takeWhileAppendStop (p : Char → Bool) (c : Char) (hc : p c = false)
    (l m : List Char) :
    List.takeWhile p (l ++ c :: m) = List.takeWhile p l := by
  induction l with
  | nil => simp [List.takeWhile_cons, hc]
  | cons a t ih =>
    by_cases ha : p a = true
    · simp [List.takeWhile_cons, ha, ih]
    · have ha' : p a = false := by
        cases hpa : p a
        · rfl
        · exact absurd hpa ha
      simp [List.takeWhile_cons, ha']

theorem memTakeWhile (p : Char → Bool) (l : List Char) (c : Char)
    (h : c ∈ List.takeWhile p l) : p c = true := by
  induction l with
  | nil => exact absurd h (List.not_mem_nil c)
  | cons a t ih =>
    by_cases ha : p a = true
    · rw [List.takeWhile_cons, if_pos ha] at h
      rcases List.mem_cons.mp h with rfl | hct
      · exact ha
      · exact ih hct
    · rw [List.takeWhile_cons, if_neg ha] at h
      exact absurd h (List.not_mem_nil c)

theorem memDropWhileSub (p : Char → Bool) (l : List Char) (c : Char)
    (h : c ∈ List.dropWhile p l) : c ∈ l := by
  induction l with
  | nil => exact h
  | cons a t ih =>
    by_cases ha : p a = true
    · rw [List.dropWhile_cons, if_pos ha] at h
      exact List.mem_cons_of_mem a (ih h)
    · rw [List.dropWhile_cons, if_neg ha] at h
      exact h

theorem rstripAppendSlash (l : List Char) :
    rstripSlashChars (l ++ ['/']) = rstripSlashChars l := by
  unfold rstripSlashChars
  rw [List.reverse_append]
  simp [List.dropWhile_cons]

theorem rstripIdem (l : List Char) :
    rstripSlashChars (rstripSlashChars l) = rstripSlashChars l := by
  unfold rstripSlashChars
  rw [List.reverse_reverse, dropWhileIdem]

theorem memRstripSub (l : List Char) (c : Char) (h : c ∈ rstripSlashChars l) : c ∈ l := by
  unfold rstripSlashChars at h
  rw [List.mem_reverse] at h
  have := memDropWhileSub _ _ _ h
  rwa [List.mem_reverse] at this

theorem slashData : ("/" : String).data = ['/'] := rfl

theorem hashData : ("#" : String).data = ['#'] := rfl

/-- `normalize_url` ignores a trailing slash. -/
theorem normalizeSlash (u : String) :
    Crawler.normalize_url (u ++ "/") = Crawler.normalize_url u := by
  unfold Crawler.normalize_url strRstripSlash
  rw [strData_append, slashData, rstripAppendSlash]

/-- `normalize_url` is idempotent. -/
theorem normalizeIdem (u : String) :
    Crawler.normalize_url (Crawler.normalize_url u) = Crawler.normalize_url u := by
  unfold Crawler.normalize_url strRstripSlash
  rw [rstripIdem]

/-- The `extract_links` href normalization ignores a trailing slash. -/
theorem hrefKeySlash (u : String) : Crawler.hrefKey (u ++ "/") = Crawler.hrefKey u := by
  unfold Crawler.hrefKey strRstripSlash strBeforeHash
  rw [strData_append, slashData]
  by_cases hall : ∀ c ∈ u.data, (fun c => decide (c ≠ '#')) c = true
  · have h1 : ∀ c ∈ u.data ++ ['/'], (fun c => decide (c ≠ '#')) c = true := by
      intro c hc
      rcases List.mem_append.mp hc with hcu | hcs
      · exact hall c hcu
      · rcases List.mem_singleton.mp hcs with rfl
        decide
    rw [takeWhileAll _ _ h1, takeWhileAll _ _ hall, rstripAppendSlash]
  · push_neg at hall
    rcases hall with ⟨c, hc, hpc⟩
    have hpc' : (fun c => decide (c ≠ '#')) c = false := by
      cases hb : (fun c => decide (c ≠ '#')) c
      · rfl
      · exact absurd hb hpc
    rw [takeWhileAppendHit _ _ _ ⟨c, hc, hpc'⟩]

/-- The `extract_links` href normalization ignores an appended fragment. -/
theorem hrefKeyFrag (u f : String) :
    Crawler.hrefKey (u ++ "#" ++ f) = Crawler.hrefKey u := by
  unfold Crawler.hrefKey strRstripSlash strBeforeHash
  rw [strData_append, strData_append, hashData, List.append_assoc]
  have hstop : (fun c => decide (c ≠ '#')) '#' = false := by decide
  rw [show ['#'] ++ f.data = '#' :: f.data from rfl, takeWhileAppendStop _ _ hstop]

/-- The `extract_links` href normalization is idempotent. -/
theorem hrefKeyIdem (u : String) :
    Crawler.hrefKey (Crawler.hrefKey u) = Crawler.hrefKey u := by
  unfold Crawler.hrefKey strRstripSlash strBeforeHash
  have hall : ∀ c ∈ rstripSlashChars (u.data.takeWhile (fun c => decide (c ≠ '#'))),
      (fun c => decide (c ≠ '#')) c = true := by
    intro c hc
    exact memTakeWhile _ _ _ (memRstripSub _ _ hc)
  rw [show (String.mk (rstripSlashChars (u.data.takeWhile (fun c => decide (c ≠ '#'))))).data
        = rstripSlashChars (u.data.takeWhile (fun c => decide (c ≠ '#'))) from rfl,
      takeWhileAll _ _ hall, rstripIdem]

/-! Helper lemmas about crawler.py `extract_links`. -/

theorem memAddUniq (links : List String) (x u : String) (h : u ∈ Crawler.addUniq links x) :
    u ∈ links ∨ u = x := by
  unfold Crawler.addUniq at h
  by_cases hx : x ∈ links
  · rw [if_pos hx] at h
    exact Or.inl h
  · rw [if_neg hx] at h
    rcases List.mem_append.mp h with h' | h'
    · exact Or.inl h'
    · exact Or.inr (List.mem_singleton.mp h')

/-- When a tag's text does not contain `Older posts`, its contribution to
the link set is either an old link or the resolved target, and in the
latter case the target survived the extension filter. -/
theorem extractStepMem (base : String) (a : Anchor) (links : List String) (u : String)
    (hop : strIn "Older posts" a.text = false)
    (hu : u ∈ Crawler.extractStepLinks base a links) :
    u ∈ links ∨ (u = Crawler.hrefKey (urljoin base a.href)
      ∧ Crawler.endsWithIgnored (strToLower u) = false) := by
  unfold Crawler.extractStepLinks at hu
  rw [hop] at hu
  simp only [Bool.false_eq_true, if_false] at hu
  by_cases hext : Crawler.endsWithIgnored (strToLower (Crawler.hrefKey (urljoin base a.href))) = true
  · rw [if_pos hext] at hu
    exact Or.inl hu
  · rw [if_neg hext] at hu
    rcases memAddUniq _ _ _ hu with h' | h'
    · exact Or.inl h'
    · refine Or.inr ⟨h', ?_⟩
      rw [h']
      cases hb : Crawler.endsWithIgnored (strToLower (Crawler.hrefKey (urljoin base a.href)))
      · rfl
      · exact absurd hb hext

/-- Over a page with no `Older posts` anchors, the extraction loop never
emits a link that ends with an ignored extension (given the accumulator
does not either). -/
theorem extractLoopNoIgnored (base : String) (html : Html) :
    ∀ acc, (∀ u ∈ acc, Crawler.endsWithIgnored (strToLower u) = false) →
    (∀ a ∈ html, strIn "Older posts" a.text = false) →
    ∀ u ∈ Crawler.extractLoop base html acc, Crawler.endsWithIgnored (strToLower u) = false := by
  induction html with
  | nil => exact fun acc hacc _ u hu => hacc u hu
  | cons a rest ih =>
    intro acc hacc hh u hu
    rw [show Crawler.extractLoop base (a :: rest) acc
          = Crawler.extractLoop base rest (Crawler.extractStepLinks base a acc) from rfl] at hu
    refine ih (Crawler.extractStepLinks base a acc) ?_
      (fun x hx => hh x (List.mem_cons_of_mem a hx)) u hu
    intro v hv
    rcases extractStepMem base a acc v (hh a (List.mem_cons_self a rest)) hv with hv' | ⟨_, hne⟩
    · exact hacc v hv'
    · exact hne

theorem endsWithIgnoredFalse (u : String)
    (h : Crawler.endsWithIgnored (strToLower u) = false) :
    ∀ ext ∈ Crawler.IGNORED_EXTENSIONS, strEndsWith (strToLower u) ext = false := by
  intro ext hext
  cases hb : strEndsWith (strToLower u) ext
  · rfl
  · have : Crawler.endsWithIgnored (strToLower u) = true :=
      List.any_eq_true.mpr ⟨ext, hext, hb⟩
    rw [this] at h
    exact absurd h (by simp)

/-! Lemmas about admissible steps and the graph operations, leading to the
crawl-loop invariant. -/

theorem expandTargetsTransport {site : Site} {u : String} (start_url : String)
    (hs : site u = .transport) : Crawler.expandTargets site start_url u = [] := by
  unfold Crawler.expandTargets
  rw [hs]

theorem expandTargetsStatus {site : Site} {u : String} (start_url : String)
    {code : Nat} {body : Html} (hs : site u = .status code body) :
    Crawler.expandTargets site start_url u =
      (if 400 ≤ code ∧ code < 600 then []
       else ((Crawler.extract_links body start_url).map Crawler.normalize_url).filter
         (fun nl => !(Crawler.suppressedB u nl) && Crawler.is_internal_link nl start_url)) := by
  unfold Crawler.expandTargets
  rw [hs]

theorem fetchOkTransport {site : Site} {u : String} (hs : site u = .transport) :
    ¬ Crawler.fetchOk site u := by
  unfold Crawler.fetchOk
  rw [hs]
  exact id

theorem fetchOkStatus {site : Site} {u : String} {code : Nat} {body : Html}
    (hs : site u = .status code body) :
    Crawler.fetchOk site u ↔ ¬(400 ≤ code ∧ code < 600) := by
  unfold Crawler.fetchOk
  rw [hs]

theorem admissibleFetchOk {site : Site} {start_url a b : String}
    (h : Crawler.admissible site start_url a b) : Crawler.fetchOk site a := by
  unfold Crawler.admissible at h
  cases hs : site a with
  | transport =>
    rw [expandTargetsTransport start_url hs] at h
    exact absurd h (List.not_mem_nil b)
  | status code body =>
    rw [expandTargetsStatus start_url hs] at h
    by_cases hc : 400 ≤ code ∧ code < 600
    · rw [if_pos hc] at h
      exact absurd h (List.not_mem_nil b)
    · exact (fetchOkStatus hs).mpr hc

theorem admissibleProps {site : Site} {start_url a b : String}
    (h : Crawler.admissible site start_url a b) :
    Crawler.suppressedB a b = false ∧ Crawler.is_internal_link b start_url = true := by
  unfold Crawler.admissible at h
  cases hs : site a with
  | transport =>
    rw [expandTargetsTransport start_url hs] at h
    exact absurd h (List.not_mem_nil b)
  | status code body =>
    rw [expandTargetsStatus start_url hs] at h
    by_cases hc : 400 ≤ code ∧ code < 600
    · rw [if_pos hc] at h
      exact absurd h (List.not_mem_nil b)
    · rw [if_neg hc] at h
      have hb := (List.mem_filter.mp h).2
      rw [Bool.and_eq_true, Bool.not_eq_true'] at hb
      exact hb

theorem admissibleInternal {site : Site} {start_url a b : String}
    (h : Crawler.admissible site start_url a b) :
    netlocOf b = "" ∨ netlocOf b = netlocOf start_url := by
  have := (admissibleProps h).2
  unfold Crawler.is_internal_link at this
  exact of_decide_eq_true this

theorem addEdgeEdgesSub (g : Crawler.DiGraph) (u v : String) :
    ∀ e ∈ g.edges, e ∈ (g.addEdge u v).edges := by
  intro e he
  show e ∈ (if (u, v) ∈ g.edges then g.edges else g.edges ++ [(u, v)])
  split
  · exact he
  · exact List.mem_append_left _ he

theorem addEdgeSelfMem (g : Crawler.DiGraph) (u v : String) :
    (u, v) ∈ (g.addEdge u v).edges := by
  show (u, v) ∈ (if (u, v) ∈ g.edges then g.edges else g.edges ++ [(u, v)])
  split
  · assumption
  · exact List.mem_append_right _ (List.mem_singleton.mpr rfl)

theorem addEdgeMemEdges (g : Crawler.DiGraph) (u v : String) (e : String × String)
    (h : e ∈ (g.addEdge u v).edges) : e ∈ g.edges ∨ e = (u, v) := by
  have h' : e ∈ (if (u, v) ∈ g.edges then g.edges else g.edges ++ [(u, v)]) := h
  by_cases hin : (u, v) ∈ g.edges
  · rw [if_pos hin] at h'
    exact Or.inl h'
  · rw [if_neg hin] at h'
    rcases List.mem_append.mp h' with h2 | h2
    · exact Or.inl h2
    · exact Or.inr (List.mem_singleton.mp h2)

theorem addEdgeMemNodes (g : Crawler.DiGraph) (u v : String) (n : String)
    (h : n ∈ (g.addEdge u v).nodes) : n ∈ g.nodes ∨ n = u ∨ n = v := by
  have h' : n ∈ (if v ∈ (if u ∈ g.nodes then g.nodes else g.nodes ++ [u])
      then (if u ∈ g.nodes then g.nodes else g.nodes ++ [u])
      else (if u ∈ g.nodes then g.nodes else g.nodes ++ [u]) ++ [v]) := h
  have step : ∀ m ∈ (if u ∈ g.nodes then g.nodes else g.nodes ++ [u]),
      m ∈ g.nodes ∨ m = u := by
    intro m hm
    by_cases hu : u ∈ g.nodes
    · rw [if_pos hu] at hm
      exact Or.inl hm
    · rw [if_neg hu] at hm
      rcases List.mem_append.mp hm with h2 | h2
      · exact Or.inl h2
      · exact Or.inr (List.mem_singleton.mp h2)
  by_cases hv : v ∈ (if u ∈ g.nodes then g.nodes else g.nodes ++ [u])
  · rw [if_pos hv] at h'
    rcases step n h' with h2 | h2
    · exact Or.inl h2
    · exact Or.inr (Or.inl h2)
  · rw [if_neg hv] at h'
    rcases List.mem_append.mp h' with h2 | h2
    · rcases step n h2 with h3 | h3
      · exact Or.inl h3
      · exact Or.inr (Or.inl h3)
    · exact Or.inr (Or.inr (List.mem_singleton.mp h2))

theorem qpropMono {site : Site} {start_url : String}
    {edges edges' : List (String × String)}
    (hsub : ∀ e ∈ edges, e ∈ edges') (x : String × List String)
    (h : Crawler.QProp site start_url edges x) :
    Crawler.QProp site start_url edges' x := by
  refine ⟨h.1, h.2.1, ?_⟩
  rcases h.2.2 with h2 | ⟨e, he, hx⟩
  · exact Or.inl h2
  · exact Or.inr ⟨e, hsub e he, hx⟩

theorem nodupConcat {l : List String} {a : String} (h : l.Nodup) (ha : a ∉ l) :
    (l ++ [a]).Nodup := by
  rw [List.nodup_append]
  refine ⟨h, List.nodup_singleton a, fun x hx hx' => ?_⟩
  rw [List.mem_singleton] at hx'
  exact ha (hx' ▸ hx)

theorem seedPathConcat {site : Site} {start_url : String} {p : List String} {u b : String}
    (hp : Crawler.seedPath site start_url p) (hl : p.getLast? = some u)
    (hadm : Crawler.admissible site start_url u b) :
    Crawler.seedPath site start_url (p ++ [b])
      ∧ (p ++ [b]).getLast? = some b := by
  have hne : p ≠ [] := by
    intro hnil
    rw [hnil] at hl
    exact absurd hl (by simp)
  refine ⟨⟨?_, ?_⟩, ?_⟩
  · rw [List.head?_append_of_ne_nil p hne]
    exact hp.1
  · rw [List.chain'_append]
    refine ⟨hp.2, List.chain'_singleton b, fun x hx y hy => ?_⟩
    rw [hl] at hx
    rcases Option.mem_some_iff.mp hx with rfl
    rcases Option.mem_some_iff.mp hy with rfl
    exact hadm
  · rw [List.getLast?_append_cons]
    rfl

/-- Specification of the inner link loop: assuming the loop invariant for
the input graph and queue, every conclusion of the invariant holds of the
output graph and queue, the input edges are preserved, and every new queue
entry extends the current path by one admissible step. -/
theorem stepLinksSpec (site : Site) (start_url u : String) (p visited : List String) :
    ∀ (links : List String) (g : Crawler.DiGraph) (q : List (String × List String)),
    (∀ link ∈ links, Crawler.suppressedB u (Crawler.normalize_url link) = false →
      Crawler.is_internal_link (Crawler.normalize_url link) start_url = true →
      Crawler.admissible site start_url u (Crawler.normalize_url link)) →
    Crawler.seedPath site start_url p → p.getLast? = some u →
    (u = Crawler.normalize_url start_url ∨ ∃ e ∈ g.edges, u = e.2) →
    (∀ e ∈ g.edges, Crawler.admissible site start_url e.1 e.2) →
    (∀ e ∈ g.edges, e.1 = Crawler.normalize_url start_url ∨ ∃ e2 ∈ g.edges, e.1 = e2.2) →
    (∀ n ∈ g.nodes, ∃ e ∈ g.edges, n = e.1 ∨ n = e.2) →
    (∀ x ∈ q, Crawler.QProp site start_url g.edges x) →
    (∀ e ∈ g.edges, e ∈ (Crawler.stepLinks start_url u p visited links g q).1.edges)
    ∧ (∀ e ∈ (Crawler.stepLinks start_url u p visited links g q).1.edges,
        Crawler.admissible site start_url e.1 e.2)
    ∧ (∀ e ∈ (Crawler.stepLinks start_url u p visited links g q).1.edges,
        e.1 = Crawler.normalize_url start_url
          ∨ ∃ e2 ∈ (Crawler.stepLinks start_url u p visited links g q).1.edges, e.1 = e2.2)
    ∧ (∀ n ∈ (Crawler.stepLinks start_url u p visited links g q).1.nodes,
        ∃ e ∈ (Crawler.stepLinks start_url u p visited links g q).1.edges, n = e.1 ∨ n = e.2)
    ∧ (∀ x ∈ (Crawler.stepLinks start_url u p visited links g q).2,
        Crawler.QProp site start_url (Crawler.stepLinks start_url u p visited links g q).1.edges x) := by
  intro links
  induction links with
  | nil =>
    intro g q _ _ _ _ hga hgs hgn hq
    exact ⟨fun e he => he, hga, hgs, hgn, hq⟩
  | cons link rest ih =>
    intro g q hadm hp hpl husrc hga hgs hgn hq
    have hstep : Crawler.stepLinks start_url u p visited (link :: rest) g q =
        (if Crawler.suppressedB u (Crawler.normalize_url link) = true then
          Crawler.stepLinks start_url u p visited rest g q
        else if Crawler.is_internal_link (Crawler.normalize_url link) start_url = true
            ∧ Crawler.normalize_url link ∉ visited then
          Crawler.stepLinks start_url u p visited rest
            (g.addEdge u (Crawler.normalize_url link))
            (q ++ [(Crawler.normalize_url link, p ++ [Crawler.normalize_url link])])
        else Crawler.stepLinks start_url u p visited rest g q) := rfl
    rw [hstep]
    by_cases h1 : Crawler.suppressedB u (Crawler.normalize_url link) = true
    · rw [if_pos h1]
      exact ih g q (fun l hl => hadm l (List.mem_cons_of_mem link hl)) hp hpl husrc
        hga hgs hgn hq
    · rw [if_neg h1]
      by_cases h2 : Crawler.is_internal_link (Crawler.normalize_url link) start_url = true
          ∧ Crawler.normalize_url link ∉ visited
      · rw [if_pos h2]
        have h1f : Crawler.suppressedB u (Crawler.normalize_url link) = false := by
          cases hb : Crawler.suppressedB u (Crawler.normalize_url link)
          · rfl
          · exact absurd hb h1
        have hadm_nl : Crawler.admissible site start_url u (Crawler.normalize_url link) :=
          hadm link (List.mem_cons_self link rest) h1f h2.1
        have hsub := addEdgeEdgesSub g u (Crawler.normalize_url link)
        have hga1 : ∀ e ∈ (g.addEdge u (Crawler.normalize_url link)).edges,
            Crawler.admissible site start_url e.1 e.2 := by
          intro e he
          rcases addEdgeMemEdges g u (Crawler.normalize_url link) e he with h3 | h3
          · exact hga e h3
          · rw [h3]
            exact hadm_nl
        have hgs1 : ∀ e ∈ (g.addEdge u (Crawler.normalize_url link)).edges,
            e.1 = Crawler.normalize_url start_url
              ∨ ∃ e2 ∈ (g.addEdge u (Crawler.normalize_url link)).edges, e.1 = e2.2 := by
          intro e he
          rcases addEdgeMemEdges g u (Crawler.normalize_url link) e he with h3 | h3
          · rcases hgs e h3 with h4 | ⟨e2, he2, h4⟩
            · exact Or.inl h4
            · exact Or.inr ⟨e2, hsub e2 he2, h4⟩
          · rw [h3]
            rcases husrc with h4 | ⟨e2, he2, h4⟩
            · exact Or.inl h4
            · exact Or.inr ⟨e2, hsub e2 he2, h4⟩
        have hgn1 : ∀ n ∈ (g.addEdge u (Crawler.normalize_url link)).nodes,
            ∃ e ∈ (g.addEdge u (Crawler.normalize_url link)).edges, n = e.1 ∨ n = e.2 := by
          intro n hn
          rcases addEdgeMemNodes g u (Crawler.normalize_url link) n hn with h3 | h3 | h3
          · rcases hgn n h3 with ⟨e, he, h4⟩
            exact ⟨e, hsub e he, h4⟩
          · exact ⟨(u, Crawler.normalize_url link),
              addEdgeSelfMem g u (Crawler.normalize_url link), Or.inl h3⟩
          · exact ⟨(u, Crawler.normalize_url link),
              addEdgeSelfMem g u (Crawler.normalize_url link), Or.inr h3⟩
        have husrc1 : u = Crawler.normalize_url start_url
            ∨ ∃ e ∈ (g.addEdge u (Crawler.normalize_url link)).edges, u = e.2 := by
          rcases husrc with h4 | ⟨e2, he2, h4⟩
          · exact Or.inl h4
          · exact Or.inr ⟨e2, hsub e2 he2, h4⟩
        have hq1 : ∀ x ∈ q ++ [(Crawler.normalize_url link,
              p ++ [Crawler.normalize_url link])],
            Crawler.QProp site start_url (g.addEdge u (Crawler.normalize_url link)).edges x := by
          intro x hx
          rcases List.mem_append.mp hx with hx' | hx'
          · exact qpropMono hsub x (hq x hx')
          · rcases List.mem_singleton.mp hx' with rfl
            have hsp := seedPathConcat hp hpl hadm_nl
            exact ⟨hsp.1, hsp.2,
              Or.inr ⟨(u, Crawler.normalize_url link),
                addEdgeSelfMem g u (Crawler.normalize_url link), rfl⟩⟩
        have hrec := ih (g.addEdge u (Crawler.normalize_url link))
          (q ++ [(Crawler.normalize_url link, p ++ [Crawler.normalize_url link])])
          (fun l hl => hadm l (List.mem_cons_of_mem link hl)) hp hpl husrc1 hga1 hgs1 hgn1 hq1
        exact ⟨fun e he => hrec.1 e (hsub e he), hrec.2.1, hrec.2.2.1,
          hrec.2.2.2.1, hrec.2.2.2.2⟩
      · rw [if_neg h2]
        exact ih g q (fun l hl => hadm l (List.mem_cons_of_mem link hl)) hp hpl husrc
          hga hgs hgn hq

/-! Unfolding equations of `crawlStep` and the loop invariant. -/

theorem crawlStepVisited (site : Site) (start_url current_url : String)
    (path : List String) (rest : List (String × List String)) (s : Crawler.CrawlState)
    (hv : current_url ∈ s.visited) :
    Crawler.crawlStep site start_url current_url path rest s = { s with queue := rest } := by
  unfold Crawler.crawlStep
  rw [if_pos hv]

theorem crawlStepTransport (site : Site) (start_url current_url : String)
    (path : List String) (rest : List (String × List String)) (s : Crawler.CrawlState)
    (hv : current_url ∉ s.visited) (hs : site current_url = .transport) :
    Crawler.crawlStep site start_url current_url path rest s =
      { s with queue := rest, visited := s.visited ++ [current_url] } := by
  unfold Crawler.crawlStep
  rw [if_neg hv, hs]

theorem crawlStepStatus (site : Site) (start_url current_url : String)
    (path : List String) (rest : List (String × List String)) (s : Crawler.CrawlState)
    {code : Nat} {body : Html}
    (hv : current_url ∉ s.visited) (hs : site current_url = .status code body) :
    Crawler.crawlStep site start_url current_url path rest s =
      (if 400 ≤ code ∧ code < 600 then
        if code = 404 then
          { s with queue := rest, visited := s.visited ++ [current_url],
                   error_404s := s.error_404s ++ [(current_url, path)] }
        else { s with queue := rest, visited := s.visited ++ [current_url] }
      else
        { graph := (Crawler.stepLinks start_url current_url path (s.visited ++ [current_url])
            (Crawler.extract_links body start_url) s.graph []).1,
          visited := s.visited ++ [current_url],
          queue := rest ++ (Crawler.stepLinks start_url current_url path
            (s.visited ++ [current_url]) (Crawler.extract_links body start_url) s.graph []).2,
          error_404s := s.error_404s }) := by
  unfold Crawler.crawlStep
  rw [if_neg hv, hs]

/-- One loop iteration preserves the crawl invariant. -/
theorem crawlStepInv (site : Site) (start_url current_url : String) (path : List String)
    (rest : List (String × List String)) (s : Crawler.CrawlState)
    (hinv : Crawler.Inv site start_url s)
    (hqe : s.queue = (current_url, path) :: rest) :
    Crawler.Inv site start_url (Crawler.crawlStep site start_url current_url path rest s) := by
  have hhead : Crawler.QProp site start_url s.graph.edges (current_url, path) := by
    apply hinv.qProp
    rw [hqe]
    exact List.mem_cons_self _ _
  have hrest : ∀ x ∈ rest, Crawler.QProp site start_url s.graph.edges x := by
    intro x hx
    apply hinv.qProp
    rw [hqe]
    exact List.mem_cons_of_mem _ hx
  by_cases hv : current_url ∈ s.visited
  · rw [crawlStepVisited site start_url current_url path rest s hv]
    exact ⟨hrest, hinv.ePath, hinv.e404, hinv.eVis, hinv.eNodup, hinv.gAdm, hinv.gSrc,
      hinv.gNodes⟩
  · cases hs : site current_url with
    | transport =>
      rw [crawlStepTransport site start_url current_url path rest s hv hs]
      refine ⟨hrest, hinv.ePath, hinv.e404, ?_, hinv.eNodup, hinv.gAdm, hinv.gSrc,
        hinv.gNodes⟩
      intro x hx
      exact List.mem_append_left _ (hinv.eVis x hx)
    | status code body =>
      rw [crawlStepStatus site start_url current_url path rest s hv hs]
      by_cases hc : 400 ≤ code ∧ code < 600
      · rw [if_pos hc]
        by_cases h404 : code = 404
        · rw [if_pos h404]
          refine ⟨hrest, ?_, ?_, ?_, ?_, hinv.gAdm, hinv.gSrc, hinv.gNodes⟩
          · intro x hx
            rcases List.mem_append.mp hx with hx' | hx'
            · exact hinv.ePath x hx'
            · rcases List.mem_singleton.mp hx' with rfl
              exact ⟨hhead.1, hhead.2.1⟩
          · intro x hx
            rcases List.mem_append.mp hx with hx' | hx'
            · exact hinv.e404 x hx'
            · rcases List.mem_singleton.mp hx' with rfl
              exact ⟨body, h404 ▸ hs⟩
          · intro x hx
            rcases List.mem_append.mp hx with hx' | hx'
            · exact List.mem_append_left _ (hinv.eVis x hx')
            · rcases List.mem_singleton.mp hx' with rfl
              exact List.mem_append_right _ (List.mem_singleton.mpr rfl)
          · show ((s.error_404s ++ [(current_url, path)]).map Prod.fst).Nodup
            rw [List.map_append]
            show (s.error_404s.map Prod.fst ++ [current_url]).Nodup
            apply nodupConcat hinv.eNodup
            intro hmem
            rcases List.mem_map.mp hmem with ⟨x, hx, hx1⟩
            exact hv (hx1 ▸ hinv.eVis x hx)
        · rw [if_neg h404]
          refine ⟨hrest, hinv.ePath, hinv.e404, ?_, hinv.eNodup, hinv.gAdm, hinv.gSrc,
            hinv.gNodes⟩
          intro x hx
          exact List.mem_append_left _ (hinv.eVis x hx)
      · rw [if_neg hc]
        have hadm : ∀ link ∈ Crawler.extract_links body start_url,
            Crawler.suppressedB current_url (Crawler.normalize_url link) = false →
            Crawler.is_internal_link (Crawler.normalize_url link) start_url = true →
            Crawler.admissible site start_url current_url (Crawler.normalize_url link) := by
          intro link hlink hsup hint
          unfold Crawler.admissible
          rw [expandTargetsStatus start_url hs, if_neg hc]
          refine List.mem_filter.mpr ⟨List.mem_map.mpr ⟨link, hlink, rfl⟩, ?_⟩
          rw [hsup, hint]
          rfl
        have hspec := stepLinksSpec site start_url current_url path
          (s.visited ++ [current_url]) (Crawler.extract_links body start_url) s.graph []
          hadm hhead.1 hhead.2.1 hhead.2.2 hinv.gAdm hinv.gSrc hinv.gNodes
          (fun x hx => absurd hx (List.not_mem_nil x))
        refine ⟨?_, hinv.ePath, hinv.e404, ?_, hinv.eNodup, hspec.2.1, hspec.2.2.1,
          hspec.2.2.2.1⟩
        · intro x hx
          rcases List.mem_append.mp hx with hx' | hx'
          · exact qpropMono hspec.1 x (hrest x hx')
          · exact hspec.2.2.2.2 x hx'
        · intro x hx
          exact List.mem_append_left _ (hinv.eVis x hx)

/-- The initial crawl state satisfies the invariant. -/
theorem invInit (site : Site) (start_url : String) :
    Crawler.Inv site start_url (Crawler.initState start_url) := by
  refine ⟨?_, ?_, ?_, ?_, ?_, ?_, ?_, ?_⟩
  · intro x hx
    rcases List.mem_singleton.mp hx with rfl
    exact ⟨⟨rfl, List.chain'_singleton _⟩, rfl, Or.inl rfl⟩
  · intro x hx
    exact absurd hx (List.not_mem_nil x)
  · intro x hx
    exact absurd hx (List.not_mem_nil x)
  · intro x hx
    exact absurd hx (List.not_mem_nil x)
  · exact List.nodup_nil
  · intro e he
    exact absurd he (List.not_mem_nil e)
  · intro e he
    exact absurd he (List.not_mem_nil e)
  · intro n hn
    exact absurd hn (List.not_mem_nil n)

/-- The crawl loop preserves the invariant and, when it reports completion,
ends with an empty queue. -/
theorem crawlLoopInv (site : Site) (start_url : String) :
    ∀ (fuel : Nat) (s sf : Crawler.CrawlState), Crawler.Inv site start_url s →
    Crawler.crawlLoop site start_url fuel s = some sf →
    Crawler.Inv site start_url sf ∧ sf.queue = [] := by
  intro fuel
  induction fuel with
  | zero =>
    intro s sf _ h
    exact absurd h (by simp [Crawler.crawlLoop])
  | succ n ih =>
    intro s sf hinv h
    cases hqe : s.queue with
    | nil =>
      have h2 : some s = some sf := by
        have hstep : Crawler.crawlLoop site start_url (n + 1) s =
            (match s.queue with
             | [] => some s
             | (current_url, path) :: rest =>
                 Crawler.crawlLoop site start_url n
                   (Crawler.crawlStep site start_url current_url path rest s)) := rfl
        rw [hstep, hqe] at h
        exact h
      have h3 : s = sf := Option.some.inj h2
      exact ⟨h3 ▸ hinv, h3 ▸ hqe⟩
    | cons x rest =>
      obtain ⟨current_url, path⟩ := x
      have h2 : Crawler.crawlLoop site start_url n
          (Crawler.crawlStep site start_url current_url path rest s) = some sf := by
        have hstep : Crawler.crawlLoop site start_url (n + 1) s =
            (match s.queue with
             | [] => some s
             | (current_url, path) :: rest =>
                 Crawler.crawlLoop site start_url n
                   (Crawler.crawlStep site start_url current_url path rest s)) := rfl
        rw [hstep, hqe] at h
        exact h
      exact ih _ sf (crawlStepInv site start_url current_url path rest s hinv hqe) h2

/-- Every completed crawl satisfies the invariant at its final state. -/
theorem crawlFinalInv (site : Site) (start_url : String) (fuel : Nat)
    (sf : Crawler.CrawlState)
    (h : Crawler.crawlLoop site start_url fuel (Crawler.initState start_url) = some sf) :
    Crawler.Inv site start_url sf :=
  (crawlLoopInv site start_url fuel _ sf (invInit site start_url) h).1

/-! Claim theorems. -/

/-- C1: the crawl is claimed to return a bundle (graph with depths plus
broken-link records) and never `None`; in fact crawler.py's `crawl` has no
`return` statement, so on every seed URL on which its loop terminates the
value returned to the caller is Python `None` (the inner `none`). -/
theorem claim_c1_crawl_returns_none (site : Site) (start_url : String) (fuel : Nat)
    (sf : Crawler.CrawlState)
    (h : Crawler.crawlLoop site start_url fuel (Crawler.initState start_url) = some sf) :
    Crawler.crawl site start_url fuel = some none := by
  unfold Crawler.crawl
  rw [h]
  rfl

theorem claim_c1_witness : Crawler.crawl mixedSite "https://x.test" 10 = some none :=
  claim_c1_crawl_returns_none mixedSite "https://x.test" 10 mixedFinal rfl

/-- C2: the claim says no fetch outcome raises out of the crawl loop.  In
crawler.py that holds (the loop over `mixedSite`, which exercises a
transport failure, a 500, a 404 and a success, completes), but in
website_crawler.py a transport-level failure makes `fetch_html` raise
`UnboundLocalError` (its handler reads the never-assigned `response`), and
the exception aborts `generate_sitemap_with_depth`; 404 and other HTTP
errors are handled (`fetch_html` returns `None`). -/
theorem claim_c2_transport_aborts_sitemap :
    WebsiteCrawler.fetch_html failSite "https://down.test" = .error .unboundLocal
    ∧ WebsiteCrawler.generate_sitemap_with_depth failSite "https://down.test"
        "https://down.test" 10 5 = some (.error .unboundLocal)
    ∧ WebsiteCrawler.fetch_html mixedSite "https://x.test/n" = .ok none
    ∧ WebsiteCrawler.fetch_html mixedSite "https://x.test/e" = .ok none
    ∧ WebsiteCrawler.fetch_html mixedSite "https://x.test/ok" = .ok (some [])
    ∧ Crawler.crawlLoop mixedSite "https://x.test" 10 (Crawler.initState "https://x.test")
        = some mixedFinal :=
  ⟨rfl, rfl, rfl, rfl, rfl, rfl⟩

/-- C3: the claim (and the function's own comment) says the recorded depth
is the shortest distance from the seed.  Crawling `site3` (seed links to
`/a` and `/c`, `/a` links to `/c`) records depth 2 for `/c` although the
produced graph itself contains the direct seed edge to `/c`: `add_node` on
the re-discovery of `/c` from `/a` overwrites the first-discovery depth 1
with 2. -/
theorem claim_c3_depth_overwritten :
    WebsiteCrawler.generate_sitemap_with_depth site3 "https://x.test" "https://x.test" 10 20
      = some (.ok site3Graph)
    ∧ site3Graph.depthOf "https://x.test/c" = some 2
    ∧ ("https://x.test", "https://x.test/c") ∈ site3Graph.edges
    ∧ site3Graph.depthOf "https://x.test" = some 0 :=
  ⟨rfl, rfl, by decide, rfl⟩

/-- C6 counterexample: the claim says the two-cycle crawl produces one edge
in each direction; in fact the back edge from `/b` to `/a` is absent,
because `crawl` only adds an edge when its target is not yet visited. -/
theorem claim_c6_counterexample :
    Crawler.crawlLoop cycSite "https://x.test/a" 10 (Crawler.initState "https://x.test/a")
      = some cycFinal
    ∧ ("https://x.test/b", "https://x.test/a") ∉ cycFinal.graph.edges :=
  ⟨rfl, by decide⟩

/-- C6 (amended): the crawl over the finite two-cycle site terminates (its
queue empties within fuel 10) with exactly the nodes `/a` and `/b` and the
single forward edge from `/a` to `/b`; the back edge into the already
visited `/a` is not recorded. -/
theorem claim_c6_two_cycle_terminates :
    Crawler.crawlLoop cycSite "https://x.test/a" 10 (Crawler.initState "https://x.test/a")
      = some cycFinal
    ∧ cycFinal.graph.nodes = ["https://x.test/a", "https://x.test/b"]
    ∧ cycFinal.graph.edges = [("https://x.test/a", "https://x.test/b")]
    ∧ cycFinal.queue = [] :=
  ⟨rfl, rfl, rfl, rfl⟩

/-- C7 counterexample: the claim says the internality test accepts exactly
the URLs whose scheme-qualified authority equals the seed's origin (or that
have no authority); `is_internal_link` compares only the netloc, so it
accepts an `http` URL against an `https` seed although their authorities
differ and the URL does have an authority component. -/
theorem claim_c7_counterexample :
    Crawler.is_internal_link "http://x.test/a" "https://x.test" = true
    ∧ authorityOf "http://x.test/a" ≠ authorityOf "https://x.test"
    ∧ netlocOf "http://x.test/a" ≠ "" :=
  ⟨by decide, by decide, by decide⟩

/-- C8 counterexample: `normalize_url` is claimed to map a URL and the URL
with a fragment appended to the same key; it only strips trailing slashes,
so `a#f` and `a` normalize differently. -/
theorem claim_c8_counterexample :
    Crawler.normalize_url ("a" ++ "#f") ≠ Crawler.normalize_url "a" := by decide

/-- C8 (amended): `normalize_url` identifies a URL and the URL with a
trailing slash appended and is idempotent, but does not strip fragments;
the fragment is stripped by the `split("#")[0]` step `extract_links`
applies to every resolved href before `rstrip("/")` (modelled by
`hrefKey`), and that composite key identifies all three forms and is
itself idempotent. -/
theorem claim_c8_normalization :
    (∀ u : String, Crawler.normalize_url (u ++ "/") = Crawler.normalize_url u)
    ∧ (∀ u : String, Crawler.normalize_url (Crawler.normalize_url u) = Crawler.normalize_url u)
    ∧ (∀ u : String, Crawler.hrefKey (u ++ "/") = Crawler.hrefKey u)
    ∧ (∀ u f : String, Crawler.hrefKey (u ++ "#" ++ f) = Crawler.hrefKey u)
    ∧ (∀ u : String, Crawler.hrefKey (Crawler.hrefKey u) = Crawler.hrefKey u) :=
  ⟨normalizeSlash, normalizeIdem, hrefKeySlash, hrefKeyFrag, hrefKeyIdem⟩

/-- C9 counterexample: the claim says no extracted URL whose path ends with
an ignored asset extension survives, regardless of which hyperlink element
it came from.  Two failure modes: an anchor whose text contains
`Older posts` is added before the extension filter, so its `.png` target
appears in the result; and the filter tests the full URL string, not the
parsed path, so a `.png` path followed by a query string also survives,
with no `Older posts` anchor involved. -/
theorem claim_c9_counterexample :
    ("https://x.test/pic.png"
      ∈ Crawler.extract_links [⟨"https://x.test/pic.png", "Older posts"⟩] "https://x.test"
    ∧ strEndsWith (strToLower (pathOf "https://x.test/pic.png")) ".png" = true
    ∧ strEndsWith (strToLower "https://x.test/pic.png") ".png" = true
    ∧ ".png" ∈ Crawler.IGNORED_EXTENSIONS)
    ∧ ("https://x.test/pic.png?x=1"
      ∈ Crawler.extract_links [⟨"https://x.test/pic.png?x=1", ""⟩] "https://x.test"
    ∧ strEndsWith (strToLower (pathOf "https://x.test/pic.png?x=1")) ".png" = true
    ∧ strEndsWith (strToLower "https://x.test/pic.png?x=1") ".png" = false) :=
  ⟨⟨by decide, by decide, by decide, by decide⟩, by decide, by decide, by decide⟩

/-- C9 (amended): for every page and base URL, provided no anchor's text
contains `Older posts` (those bypass the filter), the extracted set
contains no URL whose full lowercased text ends with an extension from the
exclusion list; the code tests the full URL string, not the parsed path,
so a URL whose path ends with an excluded extension is retained when a
query string follows. -/
theorem claim_c9_extension_filter (html : Html) (base : String)
    (hop : ∀ a ∈ html, strIn "Older posts" a.text = false) :
    ∀ u ∈ Crawler.extract_links html base,
      ∀ ext ∈ Crawler.IGNORED_EXTENSIONS, strEndsWith (strToLower u) ext = false := by
  intro u hu
  exact endsWithIgnoredFalse u
    (extractLoopNoIgnored base html [] (fun v hv => absurd hv (List.not_mem_nil v)) hop u hu)

theorem claim_c9_witness :
    strEndsWith (strToLower "https://x.test/a") ".png" = false :=
  claim_c9_extension_filter [⟨"https://x.test/a", ""⟩] "https://x.test"
    (by decide) "https://x.test/a" (by decide) ".png" (by decide)

/-- C4: on every completed crawl, each broken-link record holds a URL whose
fetch answered 404 together with the literal admissible path from the
normalized seed to that URL; no URL is recorded twice; graph edges only
leave successfully fetched pages (so neither 404 pages nor failed fetches
are expanded); and on the concrete site where the seed links to `/a` and
`/a` links to the 404 page `/a/b`, exactly the record
`(/a/b, [seed, /a, /a/b])` is appended. -/
theorem claim_c4_broken_link_records :
    (∀ (site : Site) (start_url : String) (fuel : Nat) (sf : Crawler.CrawlState),
      Crawler.crawlLoop site start_url fuel (Crawler.initState start_url) = some sf →
      (∀ x ∈ sf.error_404s, Crawler.is404 site x.1
        ∧ Crawler.seedPath site start_url x.2 ∧ x.2.getLast? = some x.1)
      ∧ (sf.error_404s.map Prod.fst).Nodup
      ∧ (∀ e ∈ sf.graph.edges, Crawler.fetchOk site e.1))
    ∧ (Crawler.crawlLoop brokenSite "https://x.test" 10 (Crawler.initState "https://x.test")
        = some brokenFinal
      ∧ brokenFinal.error_404s
        = [("https://x.test/a/b",
            ["https://x.test", "https://x.test/a", "https://x.test/a/b"])]) := by
  constructor
  · intro site start_url fuel sf h
    have hinv := crawlFinalInv site start_url fuel sf h
    refine ⟨?_, hinv.eNodup, ?_⟩
    · intro x hx
      exact ⟨hinv.e404 x hx, (hinv.ePath x hx).1, (hinv.ePath x hx).2⟩
    · intro e he
      exact admissibleFetchOk (hinv.gAdm e he)
  · exact ⟨rfl, rfl⟩

theorem claim_c4_witness :
    Crawler.is404 brokenSite "https://x.test/a/b"
    ∧ Crawler.seedPath brokenSite "https://x.test"
        ["https://x.test", "https://x.test/a", "https://x.test/a/b"] := by
  have h := claim_c4_broken_link_records.1 brokenSite "https://x.test" 10 brokenFinal rfl
  have hm : ("https://x.test/a/b",
      ["https://x.test", "https://x.test/a", "https://x.test/a/b"])
      ∈ brokenFinal.error_404s := by decide
  exact ⟨(h.1 _ hm).1, (h.1 _ hm).2.1⟩

/-- C5: on every completed crawl, no recorded edge is a suppressed
blog-to-blog link; on the concrete blog site crawled from the first post,
the post-to-index and index-to-post edges are present while both
post-to-post edges are absent; and when the seed post links only to a
sibling post, the suppressed candidate is neither added nor enqueued (it is
never even visited). -/
theorem claim_c5_blog_suppression :
    (∀ (site : Site) (start_url : String) (fuel : Nat) (sf : Crawler.CrawlState),
      Crawler.crawlLoop site start_url fuel (Crawler.initState start_url) = some sf →
      ∀ e ∈ sf.graph.edges, Crawler.suppressedB e.1 e.2 = false)
    ∧ (Crawler.crawlLoop blogSite "https://x.test/blog/post1" 10
        (Crawler.initState "https://x.test/blog/post1") = some blogFinal
      ∧ ("https://x.test/blog/post1", "https://x.test/blog") ∈ blogFinal.graph.edges
      ∧ ("https://x.test/blog", "https://x.test/blog/post2") ∈ blogFinal.graph.edges
      ∧ ("https://x.test/blog/post1", "https://x.test/blog/post2") ∉ blogFinal.graph.edges
      ∧ ("https://x.test/blog/post2", "https://x.test/blog/post1") ∉ blogFinal.graph.edges)
    ∧ (Crawler.crawlLoop blogSite2 "https://x.test/blog/post1" 10
        (Crawler.initState "https://x.test/blog/post1") = some blog2Final
      ∧ blog2Final.graph.edges = []
      ∧ "https://x.test/blog/post2" ∉ blog2Final.visited) := by
  refine ⟨?_, ⟨rfl, by decide, by decide, by decide, by decide⟩, rfl, rfl, by decide⟩
  intro site start_url fuel sf h e he
  exact (admissibleProps ((crawlFinalInv site start_url fuel sf h).gAdm e he)).1

theorem claim_c5_witness :
    Crawler.suppressedB "https://x.test/blog/post1" "https://x.test/blog" = false := by
  have h := claim_c5_blog_suppression.1 blogSite "https://x.test/blog/post1" 10 blogFinal rfl
  exact h ("https://x.test/blog/post1", "https://x.test/blog") (by decide)

/-- C7 (amended): on every completed crawl, every edge target has an empty
netloc or the seed's netloc, and every node is the normalized seed or also
satisfies that netloc condition; and the internality test accepts a URL iff
its netloc (host with optional port, the scheme is not compared) is empty
or equals the seed's netloc. -/
theorem claim_c7_internal_scope :
    (∀ (site : Site) (start_url : String) (fuel : Nat) (sf : Crawler.CrawlState),
      Crawler.crawlLoop site start_url fuel (Crawler.initState start_url) = some sf →
      (∀ e ∈ sf.graph.edges, netlocOf e.2 = "" ∨ netlocOf e.2 = netlocOf start_url)
      ∧ (∀ n ∈ sf.graph.nodes, n = Crawler.normalize_url start_url
          ∨ netlocOf n = "" ∨ netlocOf n = netlocOf start_url))
    ∧ (∀ u b : String, Crawler.is_internal_link u b = true
        ↔ (netlocOf u = "" ∨ netlocOf u = netlocOf b)) := by
  constructor
  · intro site start_url fuel sf h
    have hinv := crawlFinalInv site start_url fuel sf h
    constructor
    · intro e he
      exact admissibleInternal (hinv.gAdm e he)
    · intro n hn
      rcases hinv.gNodes n hn with ⟨e, he, hn2 | hn2⟩
      · rcases hinv.gSrc e he with h4 | ⟨e2, he2, h4⟩
        · exact Or.inl (hn2.trans h4)
        · rcases admissibleInternal (hinv.gAdm e2 he2) with h5 | h5
          · refine Or.inr (Or.inl ?_)
            rw [hn2, h4]
            exact h5
          · refine Or.inr (Or.inr ?_)
            rw [hn2, h4]
            exact h5
      · rcases admissibleInternal (hinv.gAdm e he) with h5 | h5
        · refine Or.inr (Or.inl ?_)
          rw [hn2]
          exact h5
        · refine Or.inr (Or.inr ?_)
          rw [hn2]
          exact h5
  · intro u b
    exact ⟨of_decide_eq_true, decide_eq_true⟩

theorem claim_c7_witness :
    netlocOf "https://x.test/a" = "" ∨ netlocOf "https://x.test/a" = netlocOf "https://x.test" := by
  have h := claim_c7_internal_scope.1 brokenSite "https://x.test" 10 brokenFinal rfl
  exact h.1 ("https://x.test", "https://x.test/a") (by decide)

/-- C10: on every completed crawl, every node of the final graph is an
endpoint of some recorded edge (nodes enter the graph only through
`add_edge`); in particular, when the seed page yields no admissible
candidate, the final graph contains no nodes at all, not even the seed, as
the crawl over `lonelySite` (a seed linking only to an external domain)
shows. -/
theorem claim_c10_nodes_need_edges :
    (∀ (site : Site) (start_url : String) (fuel : Nat) (sf : Crawler.CrawlState),
      Crawler.crawlLoop site start_url fuel (Crawler.initState start_url) = some sf →
      ∀ n ∈ sf.graph.nodes, ∃ e ∈ sf.graph.edges, n = e.1 ∨ n = e.2)
    ∧ (Crawler.crawlLoop lonelySite "https://x.test" 10 (Crawler.initState "https://x.test")
        = some lonelyFinal
      ∧ lonelyFinal.graph.nodes = []) := by
  refine ⟨?_, rfl, rfl⟩
  intro site start_url fuel sf h
  exact (crawlFinalInv site start_url fuel sf h).gNodes

theorem claim_c10_witness : brokenFinal.graph.edges ≠ [] := by
  have h := claim_c10_nodes_need_edges.1 brokenSite "https://x.test" 10 brokenFinal rfl
  rcases h "https://x.test" (by decide) with ⟨e, he, _⟩
  intro hnil
  rw [hnil] at he
  exact absurd he (List.not_mem_nil e)
